import Mathlib

/-!
Verification of the mp4-to-mp3 backend (`src/server.js`) against its
natural-language specification.  The server is shallowly embedded: every
JavaScript function that the claims touch is translated into an executable
Lean definition, the filesystem is a list of present paths, the persisted
quota file is an `Option (Option QuotaRecord)` (missing / unparsable /
parsed), and the asynchronous ffmpeg job is a parameter giving the job's
terminal outcome.  Calls into the JavaScript `Date` library are kept
abstract: `now` is the string `new Date().toISOString()` returns at the
moment in question, and `normISO` is the function
`s => new Date(s).toISOString()` (the identity on well-formed ISO
timestamps, which is how it is instantiated in concrete witnesses).
-/

namespace Mp4Backend

/-- Model of `new Date(...).toISOString().split('T')[0]`'s final step:
`split('T')[0]` is the longest prefix before the first `'T'` (the whole
string when no `'T'` occurs). Used at `src/server.js:78` and `:80`. -/
def datePart (s : String) : String :=
  ⟨s.data.takeWhile (fun c => ¬ c = 'T')⟩

/-- The persisted quota record `{count, lastResetDate}` of
`conversionCount.json` (`src/server.js:41-44`).  Every write stores a
natural count and a full ISO timestamp string. -/
structure QuotaRecord where
  count : Nat
  lastResetDate : String
deriving Repr, DecidableEq

/-- State of the persisted counter file: `none` when the file is missing
(read throws), `some none` when it exists but `JSON.parse` fails, and
`some (some r)` when it parses to a record. -/
abbrev Store := Option (Option QuotaRecord)

/-- Model of `getConversionCount` (`src/server.js:46-52`): try to read and
parse the counter file; on any failure return a fresh
`{count: 0, lastResetDate: new Date().toISOString()}`.  `now` is the
ISO timestamp at the time of the call. -/
def getConversionCount (store : Store) (now : String) : QuotaRecord :=
  match store with
  | some (some r) => r
  | _ => { count := 0, lastResetDate := now }

/-- Model of `updateConversionCount` (`src/server.js:54-56`): overwrite the
counter file with the given count and reset date. -/
def updateConversionCount (count : Nat) (resetDate : String) : Store :=
  some (some { count := count, lastResetDate := resetDate })

end Mp4Backend

namespace Mp4Backend

/-- Model of Node's `path.posix.basename` (used at `src/server.js:128`):
drop trailing slashes, then keep the characters after the last remaining
slash. -/
def basename (p : String) : String :=
  ⟨((p.data.reverse.dropWhile (fun c => c = '/')).takeWhile
      (fun c => ¬ c = '/')).reverse⟩

/-- Index of the last `'.'` in a character list (`none` when there is no
dot).  Helper for `extname`. -/
def lastDotIdx : List Char → Option Nat
  | [] => none
  | c :: cs =>
    match lastDotIdx cs with
    | some i => some (i + 1)
    | none => if c = '.' then some 0 else none

/-- Model of Node's `path.posix.extname` (used at `src/server.js:62` and
`:89`): the substring of the basename from its last dot onward, except
that a basename with no dot, a basename whose only dot is its first
character, and the basename `..` have no extension. -/
def extname (p : String) : String :=
  let b := (basename p).data
  if b = ['.', '.'] then ""
  else
    match lastDotIdx b with
    | none => ""
    | some 0 => ""
    | some i => ⟨b.drop i⟩

/-- First index at which `pat` occurs as a contiguous sublist of `cs`
(JavaScript `String.indexOf` on code units; the empty pattern occurs at
index 0).  Helper for `jsReplace`. -/
def findSubstrIdx : List Char → List Char → Option Nat
  | cs, pat =>
    match cs with
    | [] => if pat.isPrefixOf ([] : List Char) then some 0 else none
    | c :: rest =>
      if pat.isPrefixOf (c :: rest) then some 0
      else (findSubstrIdx rest pat).map (fun i => i + 1)

/-- Model of JavaScript `String.prototype.replace` with a string pattern
(used at `src/server.js:89`): replace the FIRST occurrence of `pat` in
`s` by `rep`; return `s` unchanged when `pat` does not occur. -/
def jsReplace (s pat rep : String) : String :=
  match findSubstrIdx s.data pat.data with
  | none => s
  | some i => ⟨s.data.take i ++ rep.data ++ s.data.drop (i + pat.data.length)⟩

/-- Model of `src/server.js:89`:
`req.file.originalname.replace(path.extname(req.file.originalname), '.mp3')`. -/
def outputName (originalname : String) : String :=
  jsReplace originalname (extname originalname) ".mp3"

/-- Split a character list at every `'/'`; always returns at least one
(possibly empty) segment.  Helper for Node's path normalization. -/
def splitSlash : List Char → List (List Char)
  | [] => [[]]
  | c :: rest =>
    if c = '/' then [] :: splitSlash rest
    else
      match splitSlash rest with
      | [] => [[c]]
      | s :: ss => (c :: s) :: ss

/-- Join segments with `'/'` separators (inverse of `splitSlash`). -/
def joinSegs : List (List Char) → List Char
  | [] => []
  | [s] => s
  | s :: t :: rest => s ++ '/' :: joinSegs (t :: rest)

/-- Node `normalizeString`: drop empty and `.` segments; `..` pops the
previous kept segment, is discarded at the root of an absolute path, and
is kept in a relative path with nothing left to pop. -/
def normSegsAux (abs : Bool) : List (List Char) → List (List Char) → List (List Char)
  | [], acc => acc.reverse
  | seg :: rest, acc =>
    if seg = [] ∨ seg = ['.'] then normSegsAux abs rest acc
    else if seg = ['.', '.'] then
      match acc with
      | [] => if abs then normSegsAux abs rest [] else normSegsAux abs rest [seg]
      | top :: accTail =>
        if top = ['.', '.'] then normSegsAux abs rest (seg :: top :: accTail)
        else normSegsAux abs rest accTail
    else normSegsAux abs rest (seg :: acc)

/-- Model of Node's `path.posix.normalize` on the character list of a
path: resolve `.` and `..` segments and collapse slashes, preserving a
leading slash (absolute paths) and a meaningful trailing slash. -/
def normalizeChars (cs : List Char) : List Char :=
  if cs = [] then ['.']
  else
    let abs := cs.head? = some '/'
    let trailing := cs.getLast? = some '/'
    let core := joinSegs (normSegsAux (if abs then true else false) (splitSlash cs) [])
    let r := if abs then '/' :: core
             else if core = [] then ['.'] else core
    if trailing ∧ ¬ r.getLast? = some '/' then r ++ ['/'] else r

/-- Model of Node's `path.posix.join` (used at `src/server.js:129`):
concatenate the nonempty parts with `'/'` and normalize; with no
nonempty part the result is `"."`. -/
def pathJoin (parts : List String) : String :=
  let ps := parts.filter (fun p => p != "")
  if ps = [] then "."
  else ⟨normalizeChars (joinSegs (ps.map String.data))⟩

/-- Model of `src/server.js:128-129`: the file path the download endpoint
resolves for a client-supplied `:filename`, namely
`path.join(__dirname, 'converted', path.basename(filename))`. -/
def downloadFilePath (dirname filename : String) : String :=
  pathJoin [dirname, "converted", basename filename]

end Mp4Backend

namespace Mp4Backend

/-- The unreserved characters of `encodeURIComponent`:
`A-Z a-z 0-9 - _ . ! ~ * ' ( )` (the quote is code point 39). -/
def isUnreservedURI (c : Char) : Bool :=
  let n := c.toNat
  (65 ≤ n && n ≤ 90) || (97 ≤ n && n ≤ 122) || (48 ≤ n && n ≤ 57) ||
  n = 45 || n = 95 || n = 46 || n = 33 || n = 126 || n = 42 ||
  n = 39 || n = 40 || n = 41

/-- UTF-8 bytes of a code point, as naturals. -/
def utf8Bytes (n : Nat) : List Nat :=
  if n < 128 then [n]
  else if n < 2048 then [192 + n / 64, 128 + n % 64]
  else if n < 65536 then
    [224 + n / 4096, 128 + (n / 64) % 64, 128 + n % 64]
  else
    [240 + n / 262144, 128 + (n / 4096) % 64, 128 + (n / 64) % 64, 128 + n % 64]

/-- Upper-case hexadecimal digit for a value below 16. -/
def hexDigit (n : Nat) : Char :=
  if n < 10 then Char.ofNat (48 + n) else Char.ofNat (55 + n)

/-- Percent-encoding `%XY` of one byte. -/
def pctByte (b : Nat) : List Char :=
  ['%', hexDigit (b / 16), hexDigit (b % 16)]

/-- Model of JavaScript `encodeURIComponent` (used at `src/server.js:98`):
keep unreserved characters, percent-encode the UTF-8 bytes of the rest. -/
def encodeURIComponent (s : String) : String :=
  ⟨(s.data.map (fun c =>
      if isUnreservedURI c then [c]
      else ((utf8Bytes c.toNat).map pctByte).flatten)).flatten⟩

end Mp4Backend

namespace Mp4Backend

/-- Errors a JavaScript callback can raise in the modelled fragment:
dereferencing an absent `req.file` (`TypeError`), and `fs.unlinkSync` on
a missing path (`ENOENT`).  An `Except.error` result of a handler model
means the exception propagates out of the handler uncaught. -/
inductive JsError where
  | typeError
  | enoent
deriving Repr, DecidableEq

/-- Model of `fs.unlinkSync` (used at `src/server.js:103-104` and `:114`):
remove the path from the filesystem, or throw `ENOENT` when absent.  The
filesystem is the list of currently existing paths. -/
def unlinkSync (p : String) (files : List String) : Except JsError (List String) :=
  if p ∈ files then .ok (files.erase p) else .error .enoent

/-- Writing a file: creates the path if absent, overwrites it otherwise. -/
def fsWrite (p : String) (files : List String) : List String :=
  if p ∈ files then files else p :: files

/-- Model of the deferred cleanup body scheduled at `src/server.js:101-108`:
`try { fs.unlinkSync(inputPath); fs.unlinkSync(outputPath) } catch (err)
{ console.error(...) }`.  Returns the resulting filesystem and whether a
cleanup error was caught and logged; the catch swallows every failure, so
this action never propagates an exception. -/
def cleanupAction (inputPath outputPath : String) (files : List String) :
    List String × Bool :=
  match unlinkSync inputPath files with
  | .error _ => (files, true)
  | .ok f1 =>
    match unlinkSync outputPath f1 with
    | .error _ => (f1, true)
    | .ok f2 => (f2, false)

/-- The `req.file` record multer attaches to an admitted upload
(`src/server.js:59-73`): its storage path under `uploads/` and the
client-supplied original name. -/
structure ReqFile where
  path : String
  originalname : String
deriving Repr, DecidableEq

/-- Terminal outcome of the ffmpeg job (`src/server.js:92-117`): the
`end` event, or the `error` event with the engine's message. -/
inductive FfmpegOutcome where
  | ok
  | err (msg : String)
deriving Repr, DecidableEq

/-- JSON body of a response of the `/convert` route. -/
inductive ResBody where
  | errorMsg (error : String)
  | success (fileName downloadUrl : String) (count : Nat)
deriving Repr, DecidableEq

/-- An HTTP response of the `/convert` route: status code and JSON body. -/
structure Response where
  status : Nat
  body : ResBody
deriving Repr, DecidableEq

/-- The 403 message of `src/server.js:85`. -/
def quotaLimitMsg : String := "You’ve hit 3 free conversions today. Please upgrade to Pro."

/-- The 500 message of `src/server.js:115`. -/
def convFailedMsg : String := "Conversion failed. Try again later."

/-- Result of the admission phase of the `/convert` handler
(`src/server.js:77-82`): the record read from the store (`rec0`, whose
`count` the later comparisons keep using) and the store contents after
the conditional date reset (`store1`). -/
structure Admission where
  rec0 : QuotaRecord
  store1 : Store
deriving Repr, DecidableEq

/-- Model of `src/server.js:77-82`: read the counter, and when the current
calendar date differs from the stored record's date (UTC date-string
comparison) rewrite the store to `{count: 0, lastResetDate: now}`.  The
local variable `count` destructured at line 77 is NOT re-read after the
reset; `rec0` keeps that stale value. -/
def admissionStep (normISO : String → String) (now : String) (store : Store) :
    Admission :=
  let rec0 := getConversionCount store now
  let today := datePart now
  let store1 :=
    if ¬ today = datePart (normISO rec0.lastResetDate)
    then updateConversionCount 0 now
    else store
  { rec0 := rec0, store1 := store1 }

/-- Everything observable about one `/convert` request once it settles:
final store contents, final filesystem, the HTTP response, and the
`(inputPath, outputPath)` pair handed to the 5-minute cleanup timer (if
one was scheduled). -/
structure ConvOutput where
  store : Store
  files : List String
  response : Response
  scheduled : Option (String × String)
deriving Repr, DecidableEq

/-- Model of the whole `POST /convert` handler (`src/server.js:76-118`)
for a request whose ffmpeg job (if started) terminates with `outcome`.
`now` is the ISO timestamp during admission, `nowEnd` the one inside the
`end` callback, `store`/`files` the state when the request arrives, and
`reqFile` the upload record (`none` when no file field was sent).  An
`Except.error` result is an exception escaping the handler: a `TypeError`
from `req.file.path` when `reqFile` is absent (line 88), or the unguarded
`fs.unlinkSync(inputPath)` of the error callback throwing (line 114). -/
def convertHandler (normISO : String → String) (now nowEnd host : String)
    (store : Store) (files : List String) (reqFile : Option ReqFile)
    (outcome : FfmpegOutcome) : Except JsError ConvOutput :=
  let a := admissionStep normISO now store
  if 3 ≤ a.rec0.count then
    .ok { store := a.store1, files := files
        , response := { status := 403, body := .errorMsg quotaLimitMsg }
        , scheduled := none }
  else
    match reqFile with
    | none => .error .typeError
    | some f =>
      let inputPath := f.path
      let outName := outputName f.originalname
      let outputPath := "converted/" ++ outName
      match outcome with
      | .ok =>
        let url := "https://" ++ host ++ "/download/" ++ encodeURIComponent outName
        .ok { store := updateConversionCount (a.rec0.count + 1) nowEnd
            , files := fsWrite outputPath files
            , response := { status := 200
                          , body := .success outName url (a.rec0.count + 1) }
            , scheduled := some (inputPath, outputPath) }
      | .err _ =>
        match unlinkSync inputPath files with
        | .error e => .error e
        | .ok files1 =>
          .ok { store := a.store1, files := files1
              , response := { status := 500, body := .errorMsg convFailedMsg }
              , scheduled := none }

deriving instance DecidableEq for Except

/-- A settled `/convert` request counts as a quota refusal when it
produced the 403 response of `src/server.js:85`. -/
def isQuotaRefusal : Except JsError ConvOutput → Prop
  | .ok o => o.response.status = 403
  | .error _ => False

@[simp]
theorem admissionStep_rec0 (normISO : String → String) (now : String) (store : Store) :
    (admissionStep normISO now store).rec0 = getConversionCount store now := rfl

theorem admissionStep_store1_same (normISO : String → String) (now : String)
    (store : Store)
    (h : datePart now = datePart (normISO (getConversionCount store now).lastResetDate)) :
    (admissionStep normISO now store).store1 = store := by
  simp [admissionStep, h]

theorem admissionStep_store1_reset (normISO : String → String) (now : String)
    (store : Store)
    (h : ¬ datePart now = datePart (normISO (getConversionCount store now).lastResetDate)) :
    (admissionStep normISO now store).store1 = updateConversionCount 0 now := by
  simp [admissionStep, h]

theorem convertHandler_refused (normISO : String → String) (now nowEnd host : String)
    (store : Store) (files : List String) (reqFile : Option ReqFile)
    (outcome : FfmpegOutcome) (h : 3 ≤ (getConversionCount store now).count) :
    convertHandler normISO now nowEnd host store files reqFile outcome
      = .ok { store := (admissionStep normISO now store).store1, files := files
            , response := { status := 403, body := .errorMsg quotaLimitMsg }
            , scheduled := none } := by
  simp only [convertHandler, admissionStep_rec0]
  rw [if_pos h]

end Mp4Backend

namespace Mp4Backend

/-- C7: `getConversionCount` never raises: it is a total function into
`QuotaRecord`, and on a read failure (missing counter file) or a parse
failure (corrupt counter file) it returns the fresh record
`{count: 0, lastResetDate: now}` — whose calendar-date part is today —
while a parsable file is returned as stored (`src/server.js:46-52`). -/
theorem C7_store_self_heal (now : String) :
    getConversionCount none now = { count := 0, lastResetDate := now }
    ∧ getConversionCount (some none) now = { count := 0, lastResetDate := now }
    ∧ ∀ r : QuotaRecord, getConversionCount (some (some r)) now = r := by
  exact ⟨rfl, rfl, fun r => rfl⟩

/-- C1 fails on the code: on the first conversion attempt of a new
calendar date the handler does rewrite the store to
`{count: 0, lastResetDate: now}` before the admission comparison
(`src/server.js:80-82`), but the comparison at line 84 still uses the
`count` variable destructured at line 77 from the PRE-reset record, so a
request arriving on a new date with yesterday's count at 3 is refused
with the 403 quota error instead of being admitted.  Only the next
request of the day, which re-reads the reset store, is admitted.  This
closed theorem evaluates the handler at such an input: the dates differ,
the stored record is reset, yet the response is the 403 refusal; a
follow-up request against the store the first one wrote succeeds. -/
theorem C1_new_date_refused_eval :
    (¬ datePart "2026-10-11T09:00:00.000Z"
        = datePart (id "2026-10-10T08:00:00.000Z"))
    ∧ convertHandler id "2026-10-11T09:00:00.000Z" "2026-10-11T09:00:05.000Z" "h"
        (some (some { count := 3, lastResetDate := "2026-10-10T08:00:00.000Z" }))
        ["uploads/1700000000000.mp4"]
        (some { path := "uploads/1700000000000.mp4", originalname := "a.mp4" }) .ok
      = .ok { store := some (some { count := 0
                                  , lastResetDate := "2026-10-11T09:00:00.000Z" })
            , files := ["uploads/1700000000000.mp4"]
            , response := { status := 403, body := .errorMsg quotaLimitMsg }
            , scheduled := none }
    ∧ (convertHandler id "2026-10-11T10:00:00.000Z" "2026-10-11T10:00:05.000Z" "h"
        (some (some { count := 0, lastResetDate := "2026-10-11T09:00:00.000Z" }))
        ["uploads/1700000000000.mp4"]
        (some { path := "uploads/1700000000000.mp4", originalname := "a.mp4" }) .ok
      = .ok { store := some (some { count := 1
                                  , lastResetDate := "2026-10-11T10:00:05.000Z" })
            , files := ["converted/a.mp3", "uploads/1700000000000.mp4"]
            , response := { status := 200
                          , body := .success "a.mp3" "https://h/download/a.mp3" 1 }
            , scheduled := some ("uploads/1700000000000.mp4", "converted/a.mp3") }) := by
  exact ⟨by decide, by decide, by decide⟩

/-- C2 fails on the code: when a request crosses a calendar-date
boundary, line 81 rewrites the store to count 0, the request is admitted
on the stale count (2 here), and the success callback at line 95 writes
`count + 1` computed from the STALE count — 3 — although the count
stored immediately before that write is 0.  The write is therefore a
jump by 3, not by exactly 1.  This closed theorem evaluates that
scenario: the store just before the success write holds 0, the success
write stores 3, and `3 = 0 + 1` is false. -/
theorem C2_success_write_eval :
    (admissionStep id "2026-10-11T09:00:00.000Z"
        (some (some { count := 2, lastResetDate := "2026-10-10T08:00:00.000Z" }))).store1
      = some (some { count := 0, lastResetDate := "2026-10-11T09:00:00.000Z" })
    ∧ convertHandler id "2026-10-11T09:00:00.000Z" "2026-10-11T09:00:05.000Z" "h"
        (some (some { count := 2, lastResetDate := "2026-10-10T08:00:00.000Z" }))
        ["uploads/1700000000000.mp4"]
        (some { path := "uploads/1700000000000.mp4", originalname := "a.mp4" }) .ok
      = .ok { store := some (some { count := 3
                                  , lastResetDate := "2026-10-11T09:00:05.000Z" })
            , files := ["converted/a.mp3", "uploads/1700000000000.mp4"]
            , response := { status := 200
                          , body := .success "a.mp3" "https://h/download/a.mp3" 3 }
            , scheduled := some ("uploads/1700000000000.mp4", "converted/a.mp3") }
    ∧ ¬ (3 = 0 + 1) := by
  exact ⟨by decide, by decide, by decide⟩

/-- C3: for a quota record whose reset date falls on the current calendar
date, a conversion attempt with stored count at least 3 is answered with
the 403 quota error, the store is left as it was, the filesystem is
untouched (in particular nothing is written to the `converted`
directory), and no cleanup is scheduled; with stored count below 3 the
request is never refused by the quota gate (`src/server.js:84-86`). -/
theorem C3_quota_gate (normISO : String → String) (now nowEnd host : String)
    (store : Store) (files : List String) (f : ReqFile) (outcome : FfmpegOutcome)
    (hsame : datePart now
      = datePart (normISO (getConversionCount store now).lastResetDate)) :
    (3 ≤ (getConversionCount store now).count →
      convertHandler normISO now nowEnd host store files (some f) outcome
        = .ok { store := store, files := files
              , response := { status := 403, body := .errorMsg quotaLimitMsg }
              , scheduled := none })
    ∧ ((getConversionCount store now).count < 3 →
      ¬ isQuotaRefusal (convertHandler normISO now nowEnd host store files (some f) outcome)) := by
  constructor
  · intro h
    rw [convertHandler_refused normISO now nowEnd host store files (some f) outcome h,
      admissionStep_store1_same normISO now store hsame]
  · intro h
    simp only [convertHandler, admissionStep_rec0]
    rw [if_neg (by omega)]
    cases outcome with
    | ok => simp [isQuotaRefusal]
    | err msg =>
      cases hu : unlinkSync f.path files with
      | error e => simp [hu, isQuotaRefusal]
      | ok files1 => simp [hu, isQuotaRefusal]

/-- C3 witness: a same-day store with count 3 is refused exactly as the
theorem states, and a same-day store with count 2 is not refused. -/
theorem C3_quota_gate_witness :
    (convertHandler id "2026-10-11T09:00:00.000Z" "2026-10-11T09:00:05.000Z" "h"
        (some (some { count := 3, lastResetDate := "2026-10-11T00:30:00.000Z" }))
        ["uploads/1.mp4"] (some { path := "uploads/1.mp4", originalname := "a.mp4" }) .ok
      = .ok { store := some (some { count := 3
                                  , lastResetDate := "2026-10-11T00:30:00.000Z" })
            , files := ["uploads/1.mp4"]
            , response := { status := 403, body := .errorMsg quotaLimitMsg }
            , scheduled := none })
    ∧ ¬ isQuotaRefusal (convertHandler id "2026-10-11T09:00:00.000Z"
        "2026-10-11T09:00:05.000Z" "h"
        (some (some { count := 2, lastResetDate := "2026-10-11T00:30:00.000Z" }))
        ["uploads/1.mp4"] (some { path := "uploads/1.mp4", originalname := "a.mp4" }) .ok) :=
  ⟨((C3_quota_gate id "2026-10-11T09:00:00.000Z" "2026-10-11T09:00:05.000Z" "h"
      (some (some { count := 3, lastResetDate := "2026-10-11T00:30:00.000Z" }))
      ["uploads/1.mp4"] { path := "uploads/1.mp4", originalname := "a.mp4" } .ok
      (by decide)).1 (by decide)),
   ((C3_quota_gate id "2026-10-11T09:00:00.000Z" "2026-10-11T09:00:05.000Z" "h"
      (some (some { count := 2, lastResetDate := "2026-10-11T00:30:00.000Z" }))
      ["uploads/1.mp4"] { path := "uploads/1.mp4", originalname := "a.mp4" } .ok
      (by decide)).2 (by decide))⟩

/-- C4: when the ffmpeg job of an admitted request fails, the error
callback (`src/server.js:112-116`) performs no store write — the store
keeps exactly the contents the admission phase left (`store1`, equal to
the original store whenever no date boundary was crossed) — the input
file is removed synchronously inside the callback, and the client gets
the fixed generic 500 body, which is the same constant for every engine
message `msg` and so carries nothing of the underlying engine error. -/
theorem C4_failure_handling (normISO : String → String) (now nowEnd host : String)
    (store : Store) (files : List String) (f : ReqFile) (msg : String)
    (hadm : (getConversionCount store now).count < 3) (hmem : f.path ∈ files) :
    convertHandler normISO now nowEnd host store files (some f) (.err msg)
      = .ok { store := (admissionStep normISO now store).store1
            , files := files.erase f.path
            , response := { status := 500, body := .errorMsg convFailedMsg }
            , scheduled := none }
    ∧ (files.Nodup → f.path ∉ files.erase f.path)
    ∧ (datePart now = datePart (normISO (getConversionCount store now).lastResetDate)
        → (admissionStep normISO now store).store1 = store) := by
  refine ⟨?_, fun hnd => hnd.not_mem_erase, fun hsame =>
    admissionStep_store1_same normISO now store hsame⟩
  simp only [convertHandler, admissionStep_rec0]
  rw [if_neg (by omega)]
  simp [unlinkSync, hmem]

/-- C4 witness: a same-day failure with count 1 leaves the store as it
was, deletes the upload, and answers with the generic 500. -/
theorem C4_failure_handling_witness :
    convertHandler id "2026-10-11T09:00:00.000Z" "2026-10-11T09:00:05.000Z" "h"
      (some (some { count := 1, lastResetDate := "2026-10-11T00:30:00.000Z" }))
      ["uploads/1.mp4"]
      (some { path := "uploads/1.mp4", originalname := "a.mp4" }) (.err "boom")
      = .ok { store := (admissionStep id "2026-10-11T09:00:00.000Z"
                (some (some { count := 1, lastResetDate := "2026-10-11T00:30:00.000Z" }))).store1
            , files := (["uploads/1.mp4"] : List String).erase "uploads/1.mp4"
            , response := { status := 500, body := .errorMsg convFailedMsg }
            , scheduled := none }
    ∧ ((["uploads/1.mp4"] : List String).Nodup
        → "uploads/1.mp4" ∉ (["uploads/1.mp4"] : List String).erase "uploads/1.mp4")
    ∧ (datePart "2026-10-11T09:00:00.000Z"
        = datePart (id (getConversionCount
            (some (some { count := 1, lastResetDate := "2026-10-11T00:30:00.000Z" }))
            "2026-10-11T09:00:00.000Z").lastResetDate)
        → (admissionStep id "2026-10-11T09:00:00.000Z"
            (some (some { count := 1, lastResetDate := "2026-10-11T00:30:00.000Z" }))).store1
          = some (some { count := 1, lastResetDate := "2026-10-11T00:30:00.000Z" })) :=
  C4_failure_handling id "2026-10-11T09:00:00.000Z" "2026-10-11T09:00:05.000Z" "h"
    (some (some { count := 1, lastResetDate := "2026-10-11T00:30:00.000Z" }))
    ["uploads/1.mp4"] { path := "uploads/1.mp4", originalname := "a.mp4" } "boom"
    (by decide) (by decide)

/-- C9 (implicit): a request refused by the quota gate gets the 403
response with the filesystem returned exactly as it was — the upload
multer already persisted under `uploads/` is neither deleted nor handed
to any expiry timer (`scheduled := none`), so it remains on disk
(`src/server.js:84-86`). -/
theorem C9_refusal_keeps_upload (normISO : String → String) (now nowEnd host : String)
    (store : Store) (files : List String) (f : ReqFile) (outcome : FfmpegOutcome)
    (h : 3 ≤ (getConversionCount store now).count) :
    convertHandler normISO now nowEnd host store files (some f) outcome
      = .ok { store := (admissionStep normISO now store).store1, files := files
            , response := { status := 403, body := .errorMsg quotaLimitMsg }
            , scheduled := none }
    ∧ (f.path ∈ files → f.path ∈ files) := by
  exact ⟨convertHandler_refused normISO now nowEnd host store files (some f) outcome h,
    fun hf => hf⟩

/-- C9 witness: a refused request with its upload present leaves the
upload in the returned filesystem. -/
theorem C9_refusal_keeps_upload_witness :
    convertHandler id "2026-10-11T09:00:00.000Z" "2026-10-11T09:00:05.000Z" "h"
      (some (some { count := 3, lastResetDate := "2026-10-11T00:30:00.000Z" }))
      ["uploads/1.mp4"]
      (some { path := "uploads/1.mp4", originalname := "a.mp4" }) .ok
      = .ok { store := (admissionStep id "2026-10-11T09:00:00.000Z"
                (some (some { count := 3, lastResetDate := "2026-10-11T00:30:00.000Z" }))).store1
            , files := ["uploads/1.mp4"]
            , response := { status := 403, body := .errorMsg quotaLimitMsg }
            , scheduled := none }
    ∧ ("uploads/1.mp4" ∈ (["uploads/1.mp4"] : List String)
        → "uploads/1.mp4" ∈ (["uploads/1.mp4"] : List String)) :=
  C9_refusal_keeps_upload id "2026-10-11T09:00:00.000Z" "2026-10-11T09:00:05.000Z" "h"
    (some (some { count := 3, lastResetDate := "2026-10-11T00:30:00.000Z" }))
    ["uploads/1.mp4"] { path := "uploads/1.mp4", originalname := "a.mp4" } .ok
    (by decide)

/-- C10 (implicit): a `POST /convert` request carrying no file that
passes the quota comparison reaches `req.file.path` at
`src/server.js:88` with `req.file` undefined; the handler model raises
the `TypeError` as an escaping exception, so the result is an
`Except.error` and none of the route's JSON responses (200 success, 403
quota error, 500 conversion error) is produced. -/
theorem C10_missing_file_faults (normISO : String → String) (now nowEnd host : String)
    (store : Store) (files : List String) (outcome : FfmpegOutcome)
    (h : (getConversionCount store now).count < 3) :
    convertHandler normISO now nowEnd host store files none outcome
      = .error .typeError := by
  simp only [convertHandler, admissionStep_rec0]
  rw [if_neg (by omega)]

/-- C10 witness: a fresh same-day store and a missing upload record fault
with the `TypeError` instead of any JSON response. -/
theorem C10_missing_file_faults_witness :
    convertHandler id "2026-10-11T09:00:00.000Z" "2026-10-11T09:00:05.000Z" "h"
      (some (some { count := 0, lastResetDate := "2026-10-11T00:30:00.000Z" }))
      [] none .ok = .error .typeError :=
  C10_missing_file_faults id "2026-10-11T09:00:00.000Z" "2026-10-11T09:00:05.000Z" "h"
    (some (some { count := 0, lastResetDate := "2026-10-11T00:30:00.000Z" }))
    [] .ok (by decide)

/-- C8 fails on the code as stated: the `fs.unlinkSync(inputPath)` in the
ffmpeg error callback (`src/server.js:114`) is NOT wrapped in a
`try`/`catch`, so when the input file is already absent the deletion
failure propagates out of the callback as an uncaught exception instead
of being caught and logged.  This closed theorem evaluates an admitted
same-day request whose job fails while its input file is missing: the
handler result is the escaping `ENOENT` exception. -/
theorem C8_counterexample :
    convertHandler id "2026-10-11T09:00:00.000Z" "2026-10-11T09:00:05.000Z" "h"
      (some (some { count := 0, lastResetDate := "2026-10-11T00:30:00.000Z" })) []
      (some { path := "uploads/1.mp4", originalname := "a.mp4" }) (.err "boom")
      = .error .enoent := by
  decide

/-- C8 amended: deletion failures in the SCHEDULED expiry action
(`src/server.js:101-108`) are caught and logged — `cleanupAction` always
returns normally, reporting a logged error when the input file is
absent, when only the output file is absent, and no error when both
unlinks succeed — but the immediate input cleanup in the conversion
error handler (`src/server.js:114`) is unguarded, and its deletion
failure propagates out of the handler as an uncaught exception. -/
theorem C8_amended (inputPath outputPath : String) (files : List String)
    (normISO : String → String) (now nowEnd host : String) (store : Store)
    (f : ReqFile) (msg : String) :
    (inputPath ∉ files → cleanupAction inputPath outputPath files = (files, true))
    ∧ (inputPath ∈ files → outputPath ∉ files.erase inputPath →
        cleanupAction inputPath outputPath files = (files.erase inputPath, true))
    ∧ (inputPath ∈ files → outputPath ∈ files.erase inputPath →
        cleanupAction inputPath outputPath files
          = ((files.erase inputPath).erase outputPath, false))
    ∧ ((getConversionCount store now).count < 3 → f.path ∉ files →
        convertHandler normISO now nowEnd host store files (some f) (.err msg)
          = .error .enoent) := by
  refine ⟨fun h => ?_, fun h1 h2 => ?_, fun h1 h2 => ?_, fun hadm hf => ?_⟩
  · simp [cleanupAction, unlinkSync, h]
  · simp [cleanupAction, unlinkSync, h1, h2]
  · simp [cleanupAction, unlinkSync, h1, h2]
  · simp only [convertHandler, admissionStep_rec0]
    rw [if_neg (by omega)]
    simp [unlinkSync, hf]

/-- C8 amended witness: with an empty filesystem the scheduled cleanup
swallows the failed deletion and logs it, while the error-handler
cleanup for the same missing input propagates the `ENOENT` exception. -/
theorem C8_amended_witness :
    cleanupAction "uploads/1.mp4" "converted/a.mp3" [] = ([], true)
    ∧ convertHandler id "2026-10-11T09:00:00.000Z" "2026-10-11T09:00:05.000Z" "h"
        (some (some { count := 0, lastResetDate := "2026-10-11T00:30:00.000Z" })) []
        (some { path := "uploads/1.mp4", originalname := "a.mp4" }) (.err "boom")
        = .error .enoent :=
  ⟨(C8_amended "uploads/1.mp4" "converted/a.mp3" [] id "2026-10-11T09:00:00.000Z"
      "2026-10-11T09:00:05.000Z" "h"
      (some (some { count := 0, lastResetDate := "2026-10-11T00:30:00.000Z" }))
      { path := "uploads/1.mp4", originalname := "a.mp4" } "boom").1 (by decide),
   (C8_amended "uploads/1.mp4" "converted/a.mp3" [] id "2026-10-11T09:00:00.000Z"
      "2026-10-11T09:00:05.000Z" "h"
      (some (some { count := 0, lastResetDate := "2026-10-11T00:30:00.000Z" }))
      { path := "uploads/1.mp4", originalname := "a.mp4" } "boom").2.2.2
      (by decide) (by decide)⟩

/-- C6 fails on the code as stated: line 89 replaces the FIRST occurrence
of the `path.extname` substring, not the final extension.  For the
original name `x.mp4.mp4` the final extension is `.mp4`, so replacing
the final extension would give `x.mp4.mp3`, but the code produces
`x.mp3.mp4`. -/
theorem C6_counterexample :
    outputName "x.mp4.mp4" = "x.mp3.mp4"
    ∧ ¬ (("x.mp3.mp4" : String) = "x.mp4.mp3") := by
  exact ⟨by decide, by decide⟩

theorem dropWhile_eq_self_of_all {α : Type} (p : α → Bool) (l : List α)
    (h : ∀ a ∈ l, p a = false) : l.dropWhile p = l := by
  cases l with
  | nil => rfl
  | cons x xs => simp [List.dropWhile_cons, h x (List.mem_cons_self x xs)]

theorem takeWhile_eq_self_of_all {α : Type} (p : α → Bool) (l : List α)
    (h : ∀ a ∈ l, p a = true) : l.takeWhile p = l := by
  induction l with
  | nil => rfl
  | cons x xs ih =>
    rw [List.takeWhile_cons, if_pos (h x (List.mem_cons_self x xs)),
      ih (fun a ha => h a (List.mem_cons_of_mem x ha))]

theorem basename_of_noSlash (p : String) (h : ∀ c ∈ p.data, ¬ c = '/') :
    basename p = p := by
  apply String.ext
  show ((p.data.reverse.dropWhile (fun c => c = '/')).takeWhile
      (fun c => ¬ c = '/')).reverse = p.data
  rw [dropWhile_eq_self_of_all _ _ (fun a ha => by
    simp only [decide_eq_false_iff_not]
    exact h a (List.mem_reverse.1 ha))]
  rw [takeWhile_eq_self_of_all _ _ (fun a ha => by
    simp only [decide_eq_true_eq]
    exact h a (List.mem_reverse.1 ha))]
  exact List.reverse_reverse p.data

theorem lastDotIdx_append_ext (l : List Char) :
    lastDotIdx (l ++ ['.', 'm', 'p', '4']) = some l.length := by
  induction l with
  | nil => rfl
  | cons c cs ih => simp [lastDotIdx, ih]

theorem extname_append_mp4 (stem : String) (h1 : ¬ stem = "")
    (h2 : ∀ c ∈ stem.data, ¬ c = '.' ∧ ¬ c = '/') :
    extname (stem ++ ".mp4") = ".mp4" := by
  have hdata : (stem ++ ".mp4").data = stem.data ++ ['.', 'm', 'p', '4'] := by
    rw [String.data_append]
  have hns : ∀ c ∈ (stem ++ ".mp4").data, ¬ c = '/' := by
    rw [hdata]
    intro c hc
    rcases List.mem_append.1 hc with hmem | hmem
    · exact (h2 c hmem).2
    · simp only [List.mem_cons, List.not_mem_nil, or_false] at hmem
      rcases hmem with rfl | rfl | rfl | rfl <;> decide
  have hne : stem.data ≠ [] := by
    intro hnil
    exact h1 (String.ext hnil)
  obtain ⟨k, hk⟩ : ∃ k, stem.data.length = k + 1 := by
    cases hsd : stem.data with
    | nil => exact absurd hsd hne
    | cons d ds => exact ⟨ds.length, by simp⟩
  have hld : lastDotIdx ((stem ++ ".mp4").data) = some (k + 1) := by
    rw [hdata, lastDotIdx_append_ext, hk]
  have hb2 : (stem ++ ".mp4").data ≠ ['.', '.'] := by
    intro hEq
    have hlen := congrArg List.length hEq
    rw [hdata] at hlen
    simp at hlen
  unfold extname
  rw [basename_of_noSlash _ hns]
  rw [if_neg hb2, hld]
  show (⟨(stem ++ ".mp4").data.drop (k + 1)⟩ : String) = ".mp4"
  rw [hdata, ← hk, List.drop_left]

theorem findSubstrIdx_append_ext (l : List Char) (h : ∀ c ∈ l, ¬ c = '.') :
    findSubstrIdx (l ++ ['.', 'm', 'p', '4']) ['.', 'm', 'p', '4'] = some l.length := by
  induction l with
  | nil => rfl
  | cons c cs ih =>
    have hc : ('.' : Char) ≠ c := fun hh => h c (List.mem_cons_self c cs) hh.symm
    show findSubstrIdx (c :: (cs ++ ['.', 'm', 'p', '4'])) ['.', 'm', 'p', '4']
      = some (cs.length + 1)
    rw [findSubstrIdx, if_neg (by simp [List.isPrefixOf, hc]),
      ih (fun a ha => h a (List.mem_cons_of_mem c ha))]
    rfl

/-- C6 amended: line 89 rewrites the original name by replacing the
FIRST occurrence of its `path.extname` substring with `.mp3`.  Whenever
the extension substring occurs only at the end — in particular for any
original name of the shape `stem.mp4` with no dot inside the stem, such
as the spec's `clip.mp4` — this coincides with replacing the final
extension, and the derived output name is `stem.mp3`.  (For names where
the extension substring occurs earlier, such as `x.mp4.mp4`, or names
with no extension at all, the code diverges from final-extension
replacement; see the counterexample.) -/
theorem C6_amended (stem : String) (h1 : ¬ stem = "")
    (h2 : ∀ c ∈ stem.data, ¬ c = '.' ∧ ¬ c = '/') :
    outputName (stem ++ ".mp4") = stem ++ ".mp3" := by
  have hdata : (stem ++ ".mp4").data = stem.data ++ ['.', 'm', 'p', '4'] := by
    rw [String.data_append]
  have hpat : (".mp4" : String).data = ['.', 'm', 'p', '4'] := rfl
  have hidx : findSubstrIdx ((stem ++ ".mp4").data) ((".mp4" : String).data)
      = some stem.data.length := by
    rw [hdata, hpat]
    exact findSubstrIdx_append_ext stem.data (fun c hc => (h2 c hc).1)
  unfold outputName
  rw [extname_append_mp4 stem h1 h2]
  unfold jsReplace
  rw [hidx]
  apply String.ext
  show (stem ++ ".mp4").data.take stem.data.length ++ (".mp3" : String).data
      ++ (stem ++ ".mp4").data.drop (stem.data.length + (".mp4" : String).data.length)
    = (stem ++ ".mp3").data
  rw [hdata, List.take_left, String.data_append]
  have hdrop : (stem.data ++ ['.', 'm', 'p', '4']).drop (stem.data.length + 4) = [] :=
    List.drop_eq_nil_of_le (by simp)
  rw [show (".mp4" : String).data.length = 4 from rfl, hdrop, List.append_nil]

/-- C6 amended witness: the spec's round-trip instance, `clip.mp4`
mapping to `clip.mp3`, obtained from the amended theorem at
`stem := "clip"`. -/
theorem C6_amended_witness : outputName ("clip" ++ ".mp4") = "clip" ++ ".mp3" :=
  C6_amended "clip" (by decide) (by decide)

theorem splitSlash_ne_nil (cs : List Char) : ¬ splitSlash cs = [] := by
  cases cs with
  | nil => simp [splitSlash]
  | cons c rest =>
    simp only [splitSlash]
    split
    · simp
    · split <;> simp

theorem splitSlash_cons_slash (rest : List Char) :
    splitSlash ('/' :: rest) = [] :: splitSlash rest := by
  simp [splitSlash]

theorem splitSlash_cons_ne (c : Char) (rest : List Char) (hc : ¬ c = '/') :
    splitSlash (c :: rest)
      = match splitSlash rest with
        | [] => [[c]]
        | s :: ss => (c :: s) :: ss := by
  simp [splitSlash, hc]

theorem joinSegs_cons2 (s t : List Char) (rest : List (List Char)) :
    joinSegs (s :: t :: rest) = s ++ '/' :: joinSegs (t :: rest) := rfl

theorem splitSlash_append (xs ys : List Char) :
    splitSlash (xs ++ '/' :: ys) = splitSlash xs ++ splitSlash ys := by
  induction xs with
  | nil =>
    rw [List.nil_append, splitSlash_cons_slash]
    rfl
  | cons c xs ih =>
    by_cases hc : c = '/'
    · subst hc
      rw [List.cons_append, splitSlash_cons_slash, ih, splitSlash_cons_slash]
      rfl
    · cases hsx : splitSlash xs with
      | nil => exact absurd hsx (splitSlash_ne_nil xs)
      | cons s ss =>
        rw [List.cons_append, splitSlash_cons_ne c _ hc, splitSlash_cons_ne c _ hc,
          ih, hsx]
        rfl

theorem splitSlash_of_noSlash (cs : List Char) (h : ∀ c ∈ cs, ¬ c = '/') :
    splitSlash cs = [cs] := by
  induction cs with
  | nil => rfl
  | cons c rest ih =>
    rw [splitSlash_cons_ne c rest (h c (List.mem_cons_self c rest)),
      ih (fun a ha => h a (List.mem_cons_of_mem c ha))]

theorem joinSegs_splitSlash (cs : List Char) : joinSegs (splitSlash cs) = cs := by
  induction cs with
  | nil => rfl
  | cons c rest ih =>
    by_cases hc : c = '/'
    · subst hc
      cases hsr : splitSlash rest with
      | nil => exact absurd hsr (splitSlash_ne_nil rest)
      | cons s ss =>
        rw [hsr] at ih
        rw [splitSlash_cons_slash, hsr, joinSegs_cons2, ih]
        rfl
    · cases hsr : splitSlash rest with
      | nil => exact absurd hsr (splitSlash_ne_nil rest)
      | cons s ss =>
        rw [hsr] at ih
        cases ss with
        | nil =>
          rw [splitSlash_cons_ne c rest hc, hsr]
          show (c :: s : List Char) = c :: rest
          rw [show (s : List Char) = joinSegs [s] from rfl, ih]
        | cons t ts =>
          rw [splitSlash_cons_ne c rest hc, hsr]
          rw [joinSegs_cons2] at ih
          show joinSegs ((c :: s) :: t :: ts) = c :: rest
          rw [joinSegs_cons2, ← ih]
          rfl

theorem joinSegs_append (xs ys : List (List Char)) (hxs : ¬ xs = [])
    (hys : ¬ ys = []) :
    joinSegs (xs ++ ys) = joinSegs xs ++ '/' :: joinSegs ys := by
  induction xs with
  | nil => exact absurd rfl hxs
  | cons x xs ih =>
    cases xs with
    | nil =>
      cases ys with
      | nil => exact absurd rfl hys
      | cons y ys2 => simp [joinSegs]
    | cons x2 xs2 =>
      have h2 := ih (by simp)
      simp only [List.cons_append] at h2 ⊢
      rw [joinSegs_cons2, h2, joinSegs_cons2]
      simp

theorem normSegsAux_nil (abs : Bool) (acc : List (List Char)) :
    normSegsAux abs [] acc = acc.reverse := rfl

theorem normSegsAux_empty_seg (abs : Bool) (rest acc : List (List Char)) :
    normSegsAux abs ([] :: rest) acc = normSegsAux abs rest acc := by
  simp [normSegsAux]

theorem normSegsAux_dot_seg (abs : Bool) (rest acc : List (List Char)) :
    normSegsAux abs (['.'] :: rest) acc = normSegsAux abs rest acc := by
  simp [normSegsAux]

theorem normSegsAux_push (abs : Bool) (s : List Char) (rest acc : List (List Char))
    (h : ¬ s = [] ∧ ¬ s = ['.'] ∧ ¬ s = ['.', '.']) :
    normSegsAux abs (s :: rest) acc = normSegsAux abs rest (s :: acc) := by
  obtain ⟨h1, h2, h3⟩ := h
  simp [normSegsAux, h1, h2, h3]

theorem normSegsAux_clean_append (abs : Bool) (segs : List (List Char))
    (hclean : ∀ s ∈ segs, ¬ s = [] ∧ ¬ s = ['.'] ∧ ¬ s = ['.', '.']) :
    ∀ tail acc : List (List Char),
      normSegsAux abs (segs ++ tail) acc = normSegsAux abs tail (segs.reverse ++ acc) := by
  induction segs with
  | nil => intro tail acc; rfl
  | cons s segs ih =>
    intro tail acc
    rw [List.cons_append,
      normSegsAux_push abs s _ acc (hclean s (List.mem_cons_self s segs)),
      ih (fun a ha => hclean a (List.mem_cons_of_mem s ha)) tail (s :: acc)]
    simp

theorem basename_data_noSlash (p : String) : ∀ c ∈ (basename p).data, ¬ c = '/' := by
  intro c hc
  have hmem : c ∈ (p.data.reverse.dropWhile (fun c => c = '/')).takeWhile
      (fun c => ¬ c = '/') := List.mem_reverse.1 hc
  have := List.mem_takeWhile_imp hmem
  simpa using this

theorem dirname_data_eq (dirname : String) (dsegs : List (List Char))
    (hsplit : splitSlash dirname.data = [] :: dsegs) (hne : ¬ dsegs = []) :
    dirname.data = '/' :: joinSegs dsegs := by
  have h4 := joinSegs_splitSlash dirname.data
  rw [hsplit] at h4
  cases dsegs with
  | nil => exact absurd rfl hne
  | cons d ds =>
    rw [← h4]
    rfl

theorem dirname_ne_empty (dirname : String) (dsegs : List (List Char))
    (hsplit : splitSlash dirname.data = [] :: dsegs) (hne : ¬ dsegs = []) :
    ¬ dirname = "" := by
  intro h0
  have hdd := dirname_data_eq dirname dsegs hsplit hne
  rw [h0] at hdd
  exact List.noConfusion hdd

theorem normalizeChars_abs (T : List Char) (c : Char) (hc1 : ¬ c = '/')
    (hc2 : ('/' :: T).getLast? = some c) :
    normalizeChars ('/' :: T)
      = '/' :: joinSegs (normSegsAux true (splitSlash ('/' :: T)) []) := by
  unfold normalizeChars
  rw [if_neg (by simp)]
  simp only [List.head?_cons, hc2, Option.some.injEq]
  simp [hc1]

theorem pathJoin_conv_drop (dirname : String) (dsegs : List (List Char))
    (hsplit : splitSlash dirname.data = [] :: dsegs)
    (hne : ¬ dsegs = [])
    (hclean : ∀ s ∈ dsegs, ¬ s = [] ∧ ¬ s = ['.'] ∧ ¬ s = ['.', '.']) :
    pathJoin [dirname, "converted", ""] = dirname ++ "/converted" := by
  have hdd := dirname_data_eq dirname dsegs hsplit hne
  have hdne := dirname_ne_empty dirname dsegs hsplit hne
  have hbt : (dirname != "") = true := by simp [hdne]
  have hfil : List.filter (fun p => p != "") [dirname, "converted", ""]
      = [dirname, "converted"] := by
    simp [List.filter, hbt]
  simp only [pathJoin, hfil]
  rw [if_neg (by simp)]
  simp only [List.map]
  have hjs : joinSegs [dirname.data, ("converted" : String).data]
      = '/' :: (joinSegs dsegs ++ '/' :: ("converted" : String).data) := by
    rw [joinSegs_cons2, hdd]
    rfl
  rw [hjs]
  rw [normalizeChars_abs _ 'd' (by decide) (by
    rw [show ('/' :: (joinSegs dsegs ++ '/' :: ("converted" : String).data))
        = ('/' :: joinSegs dsegs) ++ ('/' :: ("converted" : String).data)
      from by simp, List.getLast?_append]
    rfl)]
  have hsp2 : splitSlash ('/' :: (joinSegs dsegs ++ '/' :: ("converted" : String).data))
      = [] :: (dsegs ++ [("converted" : String).data]) := by
    rw [show ('/' :: (joinSegs dsegs ++ '/' :: ("converted" : String).data))
        = dirname.data ++ '/' :: ("converted" : String).data from by rw [hdd]; rfl]
    rw [splitSlash_append, hsplit, splitSlash_of_noSlash _ (by decide)]
    rfl
  rw [hsp2, normSegsAux_empty_seg, normSegsAux_clean_append true dsegs hclean _ _,
    normSegsAux_push true _ _ _ (by refine ⟨by decide, by decide, by decide⟩),
    normSegsAux_nil]
  rw [show (("converted" : String).data :: (dsegs.reverse ++ [])).reverse
      = dsegs ++ [("converted" : String).data] from by simp]
  rw [joinSegs_append dsegs _ hne (by simp)]
  apply String.ext
  rw [String.data_append, hdd]
  rfl

theorem pathJoin_conv_dot (dirname : String) (dsegs : List (List Char))
    (hsplit : splitSlash dirname.data = [] :: dsegs)
    (hne : ¬ dsegs = [])
    (hclean : ∀ s ∈ dsegs, ¬ s = [] ∧ ¬ s = ['.'] ∧ ¬ s = ['.', '.']) :
    pathJoin [dirname, "converted", "."] = dirname ++ "/converted" := by
  have hdd := dirname_data_eq dirname dsegs hsplit hne
  have hdne := dirname_ne_empty dirname dsegs hsplit hne
  have hbt : (dirname != "") = true := by simp [hdne]
  have hfil : List.filter (fun p => p != "") [dirname, "converted", "."]
      = [dirname, "converted", "."] := by
    simp [List.filter, hbt]
  simp only [pathJoin, hfil]
  rw [if_neg (by simp)]
  simp only [List.map]
  have hjs : joinSegs [dirname.data, ("converted" : String).data, ("." : String).data]
      = '/' :: (joinSegs dsegs
          ++ '/' :: (("converted" : String).data ++ '/' :: ("." : String).data)) := by
    rw [joinSegs_cons2, joinSegs_cons2, hdd]
    rfl
  rw [hjs]
  rw [normalizeChars_abs _ '.' (by decide) (by
    rw [show ('/' :: (joinSegs dsegs
          ++ '/' :: (("converted" : String).data ++ '/' :: ("." : String).data)))
        = ('/' :: joinSegs dsegs)
          ++ ('/' :: (("converted" : String).data ++ '/' :: ("." : String).data))
      from by simp, List.getLast?_append]
    rfl)]
  have hsp2 : splitSlash ('/' :: (joinSegs dsegs
        ++ '/' :: (("converted" : String).data ++ '/' :: ("." : String).data)))
      = [] :: (dsegs ++ [("converted" : String).data, ("." : String).data]) := by
    rw [show ('/' :: (joinSegs dsegs
          ++ '/' :: (("converted" : String).data ++ '/' :: ("." : String).data)))
        = dirname.data ++ '/' :: (("converted" : String).data ++ '/' :: ("." : String).data)
      from by rw [hdd]; rfl]
    rw [splitSlash_append, hsplit, splitSlash_append,
      splitSlash_of_noSlash ("converted" : String).data (by decide),
      splitSlash_of_noSlash ("." : String).data (by decide)]
    rfl
  rw [hsp2, normSegsAux_empty_seg, normSegsAux_clean_append true dsegs hclean _ _,
    normSegsAux_push true _ _ _ (by refine ⟨by decide, by decide, by decide⟩),
    normSegsAux_dot_seg, normSegsAux_nil]
  rw [show (("converted" : String).data :: (dsegs.reverse ++ [])).reverse
      = dsegs ++ [("converted" : String).data] from by simp]
  rw [joinSegs_append dsegs _ hne (by simp)]
  apply String.ext
  rw [String.data_append, hdd]
  rfl

theorem pathJoin_conv_push (dirname : String) (dsegs : List (List Char))
    (hsplit : splitSlash dirname.data = [] :: dsegs)
    (hne : ¬ dsegs = [])
    (hclean : ∀ s ∈ dsegs, ¬ s = [] ∧ ¬ s = ['.'] ∧ ¬ s = ['.', '.'])
    (b : List Char) (hbns : ∀ c ∈ b, ¬ c = '/')
    (hb0 : ¬ b = []) (hb1 : ¬ b = ['.']) (hb2 : ¬ b = ['.', '.']) :
    pathJoin [dirname, "converted", ⟨b⟩] = (dirname ++ "/converted") ++ ⟨'/' :: b⟩ := by
  have hdd := dirname_data_eq dirname dsegs hsplit hne
  have hdne := dirname_ne_empty dirname dsegs hsplit hne
  have hbt : (dirname != "") = true := by simp [hdne]
  have hsne : ¬ (⟨b⟩ : String) = "" := by
    intro h0
    exact hb0 (congrArg String.data h0)
  have hbt2 : ((⟨b⟩ : String) != "") = true := by simp [hsne]
  have hfil : List.filter (fun p => p != "") [dirname, "converted", ⟨b⟩]
      = [dirname, "converted", ⟨b⟩] := by
    simp [List.filter, hbt, hbt2]
  obtain ⟨b', a, hba⟩ : ∃ b' a, b = b' ++ [a] := by
    rcases List.eq_nil_or_concat b with h | ⟨b', a, hba⟩
    · exact absurd h hb0
    · exact ⟨b', a, by rw [hba, List.concat_eq_append]⟩
  have hamem : a ∈ b := by rw [hba]; simp
  have hans : ¬ a = '/' := hbns a hamem
  simp only [pathJoin, hfil]
  rw [if_neg (by simp)]
  simp only [List.map]
  have hjs : joinSegs [dirname.data, ("converted" : String).data, (⟨b⟩ : String).data]
      = '/' :: (joinSegs dsegs
          ++ '/' :: (("converted" : String).data ++ '/' :: b)) := by
    rw [joinSegs_cons2, joinSegs_cons2, hdd]
    rfl
  rw [hjs]
  rw [normalizeChars_abs _ a hans (by
    rw [show ('/' :: (joinSegs dsegs
          ++ '/' :: (("converted" : String).data ++ '/' :: b)))
        = ('/' :: (joinSegs dsegs ++ '/' :: (("converted" : String).data ++ '/' :: b')))
          ++ [a]
      from by rw [hba]; simp, List.getLast?_concat])]
  have hsp2 : splitSlash ('/' :: (joinSegs dsegs
        ++ '/' :: (("converted" : String).data ++ '/' :: b)))
      = [] :: (dsegs ++ [("converted" : String).data, b]) := by
    rw [show ('/' :: (joinSegs dsegs
          ++ '/' :: (("converted" : String).data ++ '/' :: b)))
        = dirname.data ++ '/' :: (("converted" : String).data ++ '/' :: b)
      from by rw [hdd]; rfl]
    rw [splitSlash_append, hsplit, splitSlash_append,
      splitSlash_of_noSlash ("converted" : String).data (by decide),
      splitSlash_of_noSlash b hbns]
    rfl
  rw [hsp2, normSegsAux_empty_seg, normSegsAux_clean_append true dsegs hclean _ _,
    normSegsAux_push true _ _ _ (by refine ⟨by decide, by decide, by decide⟩),
    normSegsAux_push true _ _ _ ⟨hb0, hb1, hb2⟩, normSegsAux_nil]
  rw [show (b :: ("converted" : String).data :: (dsegs.reverse ++ [])).reverse
      = dsegs ++ [("converted" : String).data, b] from by simp]
  rw [joinSegs_append dsegs _ hne (by simp)]
  apply String.ext
  rw [String.data_append, String.data_append, hdd]
  show '/' :: (joinSegs dsegs ++ '/' :: joinSegs [("converted" : String).data, b])
      = ('/' :: joinSegs dsegs ++ ("/converted" : String).data) ++ '/' :: b
  rw [joinSegs_cons2]
  simp
  rfl

/-- C5 fails on the code as stated: `path.basename` does not neutralize
the name `..` (its basename is `..` itself), so the download endpoint
resolves the client-supplied name `..` to the PARENT of the `converted`
directory — the server's own directory, here `/app` for a server
installed at `/app` — which does not lie within the output directory.
(The escape stops there: the resolved path is that directory itself, not
an arbitrary outside file, and `sendFile` on a directory fails.) -/
theorem C5_counterexample :
    downloadFilePath "/app" ".." = "/app"
    ∧ ¬ ∃ rest : String,
        downloadFilePath "/app" ".." = (("/app" : String) ++ "/converted") ++ rest := by
  constructor
  · decide
  · rintro ⟨rest, h⟩
    have he : downloadFilePath "/app" ".." = "/app" := by decide
    rw [he] at h
    have h2 := congrArg String.length h
    rw [String.length_append] at h2
    have h3 : ("/app" : String).length = 4 := rfl
    have h4 : (("/app" : String) ++ "/converted").length = 14 := rfl
    omega

/-- C5 amended: for a server directory that is a clean absolute path (no
empty, `.` or `..` segments) and ANY client-supplied file name whose
`path.basename` is not the single segment `..`, the path resolved by the
download endpoint stays within the `converted` output directory: it is
the output directory itself (names whose basename is empty or `.`) or
`converted/<basename>`.  In particular traversal payloads such as
`../../etc/passwd` are reduced to their base component and cannot reach
outside the output directory; the sole exception, basename `..`, is the
counterexample. -/
theorem C5_amended (dirname filename : String) (dsegs : List (List Char))
    (hsplit : splitSlash dirname.data = [] :: dsegs)
    (hne : ¬ dsegs = [])
    (hclean : ∀ s ∈ dsegs, ¬ s = [] ∧ ¬ s = ['.'] ∧ ¬ s = ['.', '.'])
    (hb : ¬ basename filename = "..") :
    ∃ rest : String,
      downloadFilePath dirname filename = (dirname ++ "/converted") ++ rest := by
  have hbns := basename_data_noSlash filename
  by_cases hb0 : (basename filename).data = []
  · refine ⟨"", ?_⟩
    have hbe : basename filename = "" := String.ext hb0
    rw [downloadFilePath, hbe, pathJoin_conv_drop dirname dsegs hsplit hne hclean]
    apply String.ext
    rw [String.data_append]
    simp
  · by_cases hb1 : (basename filename).data = ['.']
    · refine ⟨"", ?_⟩
      have hbe : basename filename = "." := String.ext hb1
      rw [downloadFilePath, hbe, pathJoin_conv_dot dirname dsegs hsplit hne hclean]
      apply String.ext
      rw [String.data_append]
      simp
    · refine ⟨⟨'/' :: (basename filename).data⟩, ?_⟩
      have hb2 : ¬ (basename filename).data = ['.', '.'] := by
        intro h0
        exact hb (String.ext h0)
      exact pathJoin_conv_push dirname dsegs hsplit hne hclean
        (basename filename).data hbns hb0 hb1 hb2

/-- C5 amended witness: a server installed at `/app` resolves the
traversal payload `../../etc/passwd` inside `/app/converted`. -/
theorem C5_amended_witness :
    ∃ rest : String,
      downloadFilePath "/app" "../../etc/passwd"
        = (("/app" : String) ++ "/converted") ++ rest :=
  C5_amended "/app" "../../etc/passwd" [['a', 'p', 'p']]
    (by decide) (by decide) (by decide) (by decide)

end Mp4Backend
